import Mathlib

/-!
Verification development for the `ShotGenerator` panel
(`src/components/ShotGenerator.tsx`).

The panel keeps an ordered list of pending image pairs (`PendingPair`),
lets the user attach images to pairs through a single-slot upload handler
(`handleImageUpload`) and three batch drop policies (`handleBatchDrop`
with drop types alpha / beta / mixed), and processes the qualifying pairs
sequentially (`processBatch`), appending one `Shot` per successful
analysis-service call to the externally owned `Project`.

Modelling conventions, all translated from the TypeScript source:
* Encoded images are `String`s (the base64 data URLs produced by
  `processFile`); a nullable image field is `Option String`.
* JavaScript truthiness on such a field (`p.source && ...`,
  `result.topic || ...`) is `truthy` / `jsStringOr` / `jsOrNull` below:
  `null`/`undefined` and the empty string are falsy.
* `crypto.randomUUID()` is modelled by an id-supply function
  `Nat → String` indexed by the loop position of the allocation.
* The analysis-service call, the only fallible step, is modelled by an
  oracle `svc : Nat → Option AResult` giving the outcome of the call for
  the j-th qualifying pair of the batch: `some r` is a successful
  response parsed to `r`, `none` is a thrown error.  `AResult` models the
  JSON object parsed from the response text, every field optional.
* The externally observable callbacks of `processBatch`
  (`setIsStudioBusy`, `onApiError`, and the request configurations passed
  to the service) are recorded as event lists in `BatchState`.
* `startingSequenceNumber` is a `Nat`; the JavaScript value `0` (and an
  unset field) is `0`, which is falsy, matching
  `project.startingSequenceNumber || 1` in the source.

A second, heap-based model of the same operations
(`PairHeap`, `columnDropHeap`, ...) appears further below; it makes the
JavaScript reference semantics explicit so that statements about
in-place mutation of pair objects shared with a previous list can be
settled.
-/

inductive Status
  | idle
  | processing
  | completed
  | error
deriving DecidableEq

/-- A pending pair of reference images, `PendingPair` in the source:
`{ id; source: string | null; target: string | null; status }`. -/
structure PendingPair where
  id : String
  source : Option String
  target : Option String
  status : Status
deriving DecidableEq

/-- A completed shot, `Shot` in the source, as constructed by
`processBatch`.  `visualAnalysis` and `actionPrompt` are `Option String`
because the source copies `result.analysis` / `result.prompt` without a
default, so they are `undefined` when the parsed response lacks them. -/
structure Shot where
  id : String
  sequenceOrder : Nat
  topic : String
  visualAnalysis : Option String
  actionPrompt : Option String
  sourceImage : String
  targetImage : String
  model : String
  aspect : String
  resolution : String
deriving DecidableEq

/-- The externally owned project: a shot collection plus the configurable
`startingSequenceNumber` (the source reads it as
`project.startingSequenceNumber || 1`). -/
structure Project where
  shots : List Shot
  startingSequenceNumber : Nat
deriving DecidableEq

/-- JS truthiness of a nullable string field: `null`/`undefined` and the
empty string are falsy. -/
def truthy : Option String → Bool
  | none => false
  | some s => s != ""

/-- `v || dflt` for a possibly-absent string `v`, as in
`result.topic || "Sequence Segment"`. -/
def jsStringOr (v : Option String) (dflt : String) : String :=
  match v with
  | none => dflt
  | some s => if s = "" then dflt else s

/-- `v || null` for a possibly-absent string `v`, as in
`base64Files[i+1] || null`. -/
def jsOrNull : Option String → Option String
  | none => none
  | some s => if s = "" then none else some s

/-- A fresh empty pair, `{ id: crypto.randomUUID(), source: null,
target: null, status: 'idle' }` in the source. -/
def freshPair (newId : String) : PendingPair :=
  { id := newId, source := none, target := none, status := Status.idle }

/-- `addPair`: append one fresh empty pair to the list. -/
def addPair (newId : String) (prev : List PendingPair) : List PendingPair :=
  prev ++ [freshPair newId]

/-- `removePendingPair`: if at most one pair remains the list is reset to
a single fresh pair (whatever the requested id), otherwise the pair with
the requested id is filtered out. -/
def removePendingPair (pendingPairs : List PendingPair) (pid : String)
    (freshId : String) : List PendingPair :=
  if pendingPairs.length ≤ 1 then [freshPair freshId]
  else pendingPairs.filter (fun p => p.id != pid)

/-- The two image slots of a pair; `'source' | 'target'` in the source. -/
inductive Slot
  | source
  | target
deriving DecidableEq

/-- Read the given slot of a pair. -/
def slotVal (p : PendingPair) : Slot → Option String
  | Slot.source => p.source
  | Slot.target => p.target

/-- The other slot. -/
def oppositeSlot : Slot → Slot
  | Slot.source => Slot.target
  | Slot.target => Slot.source

/-- `{ ...p, [type]: base64 }`: replace one slot of a pair, keeping
everything else. -/
def setSlot (p : PendingPair) (slot : Slot) (img : String) : PendingPair :=
  match slot with
  | Slot.source => { p with source := some img }
  | Slot.target => { p with target := some img }

/-- Character-list version of string prefix testing, used to translate
`file.type.startsWith('image/')` (the string primitive of the standard
library does not evaluate inside the kernel). -/
def leadsWith : List Char → List Char → Bool
  | [], _ => true
  | _ :: _, [] => false
  | c :: cs, d :: ds => c == d && leadsWith cs ds

/-- `file.type.startsWith('image/')`. -/
def isImageMime (fileType : String) : Bool :=
  leadsWith "image/".data fileType.data

/-- `handleImageUpload`: ignore non-image MIME types, otherwise replace
the chosen slot of the pair with the requested id. -/
def handleImageUpload (pairs : List PendingPair) (pid : String)
    (fileType : String) (base64 : String) (slot : Slot) : List PendingPair :=
  if ¬ isImageMime fileType then pairs
  else pairs.map (fun p => if p.id = pid then setSlot p slot base64 else p)

/-- The three batch drop zones: `'alpha' | 'beta' | 'mixed'`. -/
inductive DropType
  | alpha
  | beta
  | mixed
deriving DecidableEq

/-- The slot an alpha or beta column drop writes to (alpha = source
column, beta = target column; the value at `mixed` is irrelevant). -/
def colSlot : DropType → Slot
  | DropType.alpha => Slot.source
  | DropType.beta => Slot.target
  | DropType.mixed => Slot.source

/-- A new pair created for a column-drop overflow image: only the
targeted slot is set, status `idle`. -/
def newPairSlot (slot : Slot) (img : String) (newId : String) : PendingPair :=
  match slot with
  | Slot.source => { id := newId, source := some img, target := none, status := Status.idle }
  | Slot.target => { id := newId, source := none, target := some img, status := Status.idle }

/-- The `forEach` loop of the alpha/beta branches of `handleBatchDrop`
(value-level result): image `i` overwrites the targeted slot of pair `i`
when it exists, otherwise a new pair holding only that image is pushed.
`i` is the current image index, `cur` the list built so far. -/
def columnAssign (slot : Slot) (newIds : Nat → String) :
    List String → Nat → List PendingPair → List PendingPair
  | [], _, cur => cur
  | img :: rest, i, cur =>
    if h : i < cur.length then
      columnAssign slot newIds rest (i + 1) (cur.set i (setSlot cur[i] slot img))
    else
      columnAssign slot newIds rest (i + 1) (cur ++ [newPairSlot slot img (newIds i)])

/-- The `for` loop of the mixed branch of `handleBatchDrop`: consecutive
images are paired as source/target, `target := base64Files[i+1] || null`. -/
def mixedNewPairs (newIds : Nat → String) : List String → Nat → List PendingPair
  | [], _ => []
  | [a], i => [{ id := newIds i, source := some a, target := none, status := Status.idle }]
  | a :: b :: rest, i =>
    { id := newIds i, source := some a, target := jsOrNull (some b), status := Status.idle }
      :: mixedNewPairs newIds rest (i + 2)

/-- `p.source || p.target`: the pair has at least one truthy image. -/
def hasAnyImage (p : PendingPair) : Bool :=
  truthy p.source || truthy p.target

/-- `handleBatchDrop` (value-level result).  `imgs` is the list of
decoded payloads of the image-typed files of the drop; when it is empty
the handler returns before updating the state. -/
def handleBatchDrop (ty : DropType) (newIds : Nat → String)
    (imgs : List String) (prev : List PendingPair) : List PendingPair :=
  if imgs.length = 0 then prev
  else
    match ty with
    | DropType.alpha => columnAssign Slot.source newIds imgs 0 prev
    | DropType.beta => columnAssign Slot.target newIds imgs 0 prev
    | DropType.mixed => prev.filter hasAnyImage ++ mixedNewPairs newIds imgs 0

/-- The JSON object parsed from the analysis response
(`JSON.parse(response.text || "{}")`); every field may be absent. -/
structure AResult where
  topic : Option String
  analysis : Option String
  prompt : Option String
deriving DecidableEq

/-- The response configuration the source passes to the service call
(`config: { responseMimeType, responseSchema }`). -/
structure RequestConfig where
  responseMimeType : String
  schemaType : String
  schemaProperties : List (String × String)
  requiredFields : List String
deriving DecidableEq

/-- The configuration built in `processBatch`: a JSON response with
string properties `topic`, `analysis`, `prompt`, all required. -/
def analysisRequestConfig : RequestConfig :=
  { responseMimeType := "application/json",
    schemaType := "OBJECT",
    schemaProperties := [("topic", "STRING"), ("analysis", "STRING"), ("prompt", "STRING")],
    requiredFields := ["topic", "analysis", "prompt"] }

/-- The `newShot` record built in `processBatch` from a successful
result `r`: `topic: result.topic || "Sequence Segment"`, the other two
response fields copied without default, images copied from the pair,
fixed generation metadata. -/
def mkShot (shotId : String) (seq : Nat) (r : AResult) (src tgt : String) : Shot :=
  { id := shotId, sequenceOrder := seq,
    topic := jsStringOr r.topic "Sequence Segment",
    visualAnalysis := r.analysis, actionPrompt := r.prompt,
    sourceImage := src, targetImage := tgt,
    model := "veo-3.1-generate-preview", aspect := "16:9", resolution := "1080p" }

/-- The qualifying filter of `processBatch`:
`p.source && p.target && p.status !== 'completed'`. -/
def qualifies (p : PendingPair) : Bool :=
  truthy p.source && truthy p.target && p.status != Status.completed

/-- `prev.map(p => p.id === pair.id ? { ...p, status: s } : p)`. -/
def markStatus (ps : List PendingPair) (pid : String) (s : Status) : List PendingPair :=
  ps.map (fun p => if p.id = pid then { p with status := s } else p)

/-- The state touched by one run of `processBatch`, with the externally
observable callback activity recorded as event lists: `busyEvents` the
arguments of `setIsStudioBusy` calls, `errorReports` the context labels
of `onApiError` calls, `requests` the configurations of service calls,
all in order of occurrence. -/
structure BatchState where
  pendingPairs : List PendingPair
  project : Project
  busyEvents : List Bool
  errorReports : List String
  requests : List RequestConfig
deriving DecidableEq

/-- The `for (const pair of validPairs)` loop of `processBatch`.
`j` is the position of the current pair within the snapshot of
qualifying pairs, `seq` the running `currentSequenceCount`.  Each
iteration marks the pair `processing`, issues one service call, and on
success appends the new shot to the project and marks the pair
`completed`, on failure marks it `error` and reports once with context
"Analysis". -/
def processLoop (svc : Nat → Option AResult) (newIds : Nat → String) :
    List PendingPair → Nat → Nat → BatchState → BatchState
  | [], _, _, st => st
  | pair :: rest, j, seq, st =>
    let st1 : BatchState :=
      { st with pendingPairs := markStatus st.pendingPairs pair.id Status.processing,
                requests := st.requests ++ [analysisRequestConfig] }
    match svc j with
    | some r =>
      let newShot := mkShot (newIds j) seq r (pair.source.getD "") (pair.target.getD "")
      let st2 : BatchState :=
        { st1 with
          project := { st1.project with shots := st1.project.shots ++ [newShot] },
          pendingPairs := markStatus st1.pendingPairs pair.id Status.completed }
      processLoop svc newIds rest (j + 1) (seq + 1) st2
    | none =>
      let st2 : BatchState :=
        { st1 with
          pendingPairs := markStatus st1.pendingPairs pair.id Status.error,
          errorReports := st1.errorReports ++ ["Analysis"] }
      processLoop svc newIds rest (j + 1) seq st2

/-- `(project.startingSequenceNumber || 1) + project.shots.length`, the
initial value of `currentSequenceCount`. -/
def seqInit (proj : Project) : Nat :=
  (if proj.startingSequenceNumber = 0 then 1 else proj.startingSequenceNumber) + proj.shots.length

/-- `processBatch`: snapshot the qualifying pairs; if none, return with
no callback activity; otherwise set the busy flag, run the loop, clear
the busy flag, and purge `completed` pairs, resetting to a single fresh
pair when the purge empties the list. -/
def processBatch (svc : Nat → Option AResult) (newIds : Nat → String)
    (freshId : String) (pairs : List PendingPair) (proj : Project) : BatchState :=
  let validPairs := pairs.filter qualifies
  if validPairs.length = 0 then
    { pendingPairs := pairs, project := proj, busyEvents := [], errorReports := [], requests := [] }
  else
    let st0 : BatchState :=
      { pendingPairs := pairs, project := proj, busyEvents := [true],
        errorReports := [], requests := [] }
    let st1 := processLoop svc newIds validPairs 0 (seqInit proj) st0
    let st2 : BatchState := { st1 with busyEvents := st1.busyEvents ++ [false] }
    let filtered := st2.pendingPairs.filter (fun p => p.status != Status.completed)
    { st2 with pendingPairs := if filtered.length > 0 then filtered else [freshPair freshId] }

/-! ### Derived descriptions of one batch run

`applyMarks`, `expectedShots`, `failCount`, `succCount` describe the
cumulative effect of the batch loop; `processLoop_spec` and
`processBatch_eq` prove that the loop equals this description. -/

/-- The status a qualifying pair ends the batch with: `completed` on a
successful call, `error` on a failed one. -/
def outcomeStatus (svc : Nat → Option AResult) (j : Nat) : Status :=
  match svc j with
  | some _ => Status.completed
  | none => Status.error

/-- The cumulative status updates of the loop: pair `j` of the snapshot
stamps its outcome status onto every pair of the live list sharing its
id. -/
def applyMarks (svc : Nat → Option AResult) :
    List PendingPair → Nat → List PendingPair → List PendingPair
  | [], _, ps => ps
  | pair :: rest, j, ps => applyMarks svc rest (j + 1) (markStatus ps pair.id (outcomeStatus svc j))

/-- The shots appended by the loop over a snapshot starting at position
`j` with sequence counter `seq`. -/
def expectedShots (svc : Nat → Option AResult) (newIds : Nat → String) :
    List PendingPair → Nat → Nat → List Shot
  | [], _, _ => []
  | pair :: rest, j, seq =>
    match svc j with
    | some r => mkShot (newIds j) seq r (pair.source.getD "") (pair.target.getD "")
        :: expectedShots svc newIds rest (j + 1) (seq + 1)
    | none => expectedShots svc newIds rest (j + 1) seq

/-- Number of failed calls among positions `j, ..., j + n - 1`. -/
def failCount (svc : Nat → Option AResult) : Nat → Nat → Nat
  | _, 0 => 0
  | j, n + 1 => (if (svc j).isNone then 1 else 0) + failCount svc (j + 1) n

/-- Number of successful calls among positions `j, ..., j + n - 1`. -/
def succCount (svc : Nat → Option AResult) : Nat → Nat → Nat
  | _, 0 => 0
  | j, n + 1 => (if (svc j).isSome then 1 else 0) + succCount svc (j + 1) n

lemma markStatus_markStatus (ps : List PendingPair) (pid : String) (s1 s2 : Status) :
    markStatus (markStatus ps pid s1) pid s2 = markStatus ps pid s2 := by
  simp only [markStatus, List.map_map]
  apply List.map_congr_left
  intro p _
  by_cases h : p.id = pid <;> simp [h]

lemma processLoop_spec (svc : Nat → Option AResult) (newIds : Nat → String) :
    ∀ (valid : List PendingPair) (j seq : Nat) (st : BatchState),
    processLoop svc newIds valid j seq st =
      { pendingPairs := applyMarks svc valid j st.pendingPairs,
        project := { shots := st.project.shots ++ expectedShots svc newIds valid j seq,
                     startingSequenceNumber := st.project.startingSequenceNumber },
        busyEvents := st.busyEvents,
        errorReports := st.errorReports ++ List.replicate (failCount svc j valid.length) "Analysis",
        requests := st.requests ++ List.replicate valid.length analysisRequestConfig }
  | [], j, seq, st => by
    simp [processLoop, applyMarks, expectedShots, failCount]
  | pair :: rest, j, seq, st => by
    cases hsvc : svc j with
    | some r =>
      simp only [processLoop, hsvc]
      rw [processLoop_spec svc newIds rest (j + 1) (seq + 1)]
      simp [applyMarks, expectedShots, failCount, outcomeStatus, hsvc,
        markStatus_markStatus, List.replicate_succ]
    | none =>
      simp only [processLoop, hsvc]
      rw [processLoop_spec svc newIds rest (j + 1) seq]
      simp [applyMarks, expectedShots, failCount, outcomeStatus, hsvc,
        markStatus_markStatus, List.replicate_succ, List.replicate_add, List.replicate_one]

/-- Closed description of a whole `processBatch` run. -/
lemma processBatch_eq (svc : Nat → Option AResult) (newIds : Nat → String)
    (freshId : String) (pairs : List PendingPair) (proj : Project) :
    processBatch svc newIds freshId pairs proj =
      if (pairs.filter qualifies).length = 0 then
        { pendingPairs := pairs, project := proj, busyEvents := [],
          errorReports := [], requests := [] }
      else
        { pendingPairs :=
            (fun filtered => if filtered.length > 0 then filtered else [freshPair freshId])
              ((applyMarks svc (pairs.filter qualifies) 0 pairs).filter
                (fun p => p.status != Status.completed)),
          project := Project.mk
            (proj.shots ++ expectedShots svc newIds (pairs.filter qualifies) 0 (seqInit proj))
            proj.startingSequenceNumber,
          busyEvents := [true, false],
          errorReports := List.replicate (failCount svc 0 (pairs.filter qualifies).length) "Analysis",
          requests := List.replicate (pairs.filter qualifies).length analysisRequestConfig } := by
  by_cases h : (pairs.filter qualifies).length = 0
  · simp [processBatch, h]
  · simp only [processBatch, h, if_neg h, if_false]
    rw [processLoop_spec]
    simp

/-- Position of the first pair with the given id in a snapshot list. -/
def findIdxId : List PendingPair → String → Option Nat
  | [], _ => none
  | q :: rest, pid => if q.id = pid then some 0 else (findIdxId rest pid).map (· + 1)

lemma findIdxId_eq_none_iff : ∀ (valid : List PendingPair) (pid : String),
    findIdxId valid pid = none ↔ pid ∉ valid.map PendingPair.id
  | [], pid => by simp [findIdxId]
  | q :: rest, pid => by
    by_cases h : q.id = pid
    · simp [findIdxId, h]
    · simp [findIdxId, h, findIdxId_eq_none_iff rest pid, Ne.symm h]

lemma findIdxId_getElem : ∀ (valid : List PendingPair) (pid : String) (k : Nat),
    findIdxId valid pid = some k → ∃ hk : k < valid.length, valid[k].id = pid
  | [], pid, k => by simp [findIdxId]
  | q :: rest, pid, k => by
    intro hfind
    by_cases h : q.id = pid
    · simp only [findIdxId, if_pos h, Option.some.injEq] at hfind
      subst hfind
      exact ⟨by simp, h⟩
    · simp only [findIdxId, if_neg h] at hfind
      cases hk' : findIdxId rest pid with
      | none => rw [hk'] at hfind; simp at hfind
      | some k' =>
        rw [hk'] at hfind
        simp only [Option.map_some', Option.some.injEq] at hfind
        subst hfind
        obtain ⟨hlt, hid⟩ := findIdxId_getElem rest pid k' hk'
        exact ⟨by simpa using Nat.succ_lt_succ hlt, by simpa using hid⟩

lemma findIdxId_get : ∀ (valid : List PendingPair),
    (valid.map PendingPair.id).Nodup → ∀ (j : Nat) (hj : j < valid.length),
    findIdxId valid (valid[j].id) = some j
  | [], _, j, hj => by simp at hj
  | q :: rest, hnd, j, hj => by
    have hnd' : (∀ x ∈ rest, ¬ x.id = q.id) ∧ (List.map PendingPair.id rest).Nodup := by
      simpa using hnd
    match j with
    | 0 => simp [findIdxId]
    | j + 1 =>
      have hj' : j < rest.length := by simpa using hj
      have hne : ¬ q.id = rest[j].id :=
        fun hc => (hnd'.1 rest[j] (List.getElem_mem hj')) hc.symm
      simp only [List.getElem_cons_succ, findIdxId, if_neg hne]
      rw [findIdxId_get rest hnd'.2 j hj']
      rfl

lemma applyMarks_spec (svc : Nat → Option AResult) : ∀ (valid : List PendingPair),
    (valid.map PendingPair.id).Nodup → ∀ (j : Nat) (ps : List PendingPair),
    applyMarks svc valid j ps = ps.map (fun p =>
      match findIdxId valid p.id with
      | some k => { p with status := outcomeStatus svc (j + k) }
      | none => p)
  | [], _, j, ps => by simp [applyMarks, findIdxId]
  | q :: rest, hnd, j, ps => by
    have hnd' : (∀ x ∈ rest, ¬ x.id = q.id) ∧ (List.map PendingPair.id rest).Nodup := by
      simpa using hnd
    have hqmem : q.id ∉ List.map PendingPair.id rest := by simpa using hnd'.1
    rw [applyMarks, applyMarks_spec svc rest hnd'.2 (j + 1), markStatus, List.map_map]
    apply List.map_congr_left
    intro p _
    by_cases hp : p.id = q.id
    · have h1 : findIdxId rest q.id = none := (findIdxId_eq_none_iff rest q.id).mpr hqmem
      simp [Function.comp, hp, findIdxId, h1]
    · have hq' : ¬ q.id = p.id := fun hc => hp hc.symm
      cases hf : findIdxId rest p.id with
      | some k =>
        have harith : j + 1 + k = j + (k + 1) := by omega
        simp [Function.comp, hp, findIdxId, hf, hq', harith]
      | none => simp [Function.comp, hp, findIdxId, hf, hq']

lemma expectedShots_length (svc : Nat → Option AResult) (newIds : Nat → String) :
    ∀ (valid : List PendingPair) (j seq : Nat),
    (expectedShots svc newIds valid j seq).length = succCount svc j valid.length
  | [], _, _ => by simp [expectedShots, succCount]
  | pair :: rest, j, seq => by
    cases hsvc : svc j with
    | some r =>
      simp [expectedShots, succCount, hsvc, expectedShots_length svc newIds rest (j + 1)]
      omega
    | none =>
      simp [expectedShots, succCount, hsvc, expectedShots_length svc newIds rest (j + 1)]

lemma expectedShots_seq_le (svc : Nat → Option AResult) (newIds : Nat → String) :
    ∀ (valid : List PendingPair) (j seq : Nat) (s : Shot),
    s ∈ expectedShots svc newIds valid j seq → seq ≤ s.sequenceOrder
  | [], _, _, s => by simp [expectedShots]
  | pair :: rest, j, seq, s => by
    cases hsvc : svc j with
    | some r =>
      simp only [expectedShots, hsvc, List.mem_cons]
      rintro (rfl | hmem)
      · simp [mkShot]
      · exact Nat.le_of_succ_le (expectedShots_seq_le svc newIds rest (j + 1) (seq + 1) s hmem)
    | none =>
      simp only [expectedShots, hsvc]
      exact expectedShots_seq_le svc newIds rest (j + 1) seq s

lemma expectedShots_pairwise (svc : Nat → Option AResult) (newIds : Nat → String) :
    ∀ (valid : List PendingPair) (j seq : Nat),
    (expectedShots svc newIds valid j seq).Pairwise
      (fun a b => a.sequenceOrder < b.sequenceOrder)
  | [], _, _ => by simp [expectedShots]
  | pair :: rest, j, seq => by
    cases hsvc : svc j with
    | some r =>
      simp only [expectedShots, hsvc]
      refine List.Pairwise.cons ?_ (expectedShots_pairwise svc newIds rest (j + 1) (seq + 1))
      intro b hb
      have := expectedShots_seq_le svc newIds rest (j + 1) (seq + 1) b hb
      simp only [mkShot]
      omega
    | none =>
      simp only [expectedShots, hsvc]
      exact expectedShots_pairwise svc newIds rest (j + 1) seq

lemma expectedShots_head (svc : Nat → Option AResult) (newIds : Nat → String) :
    ∀ (valid : List PendingPair) (j seq : Nat),
    expectedShots svc newIds valid j seq ≠ [] →
    ∃ s, (expectedShots svc newIds valid j seq).head? = some s ∧ s.sequenceOrder = seq
  | [], _, _ => by simp [expectedShots]
  | pair :: rest, j, seq => by
    cases hsvc : svc j with
    | some r =>
      intro _
      refine ⟨mkShot (newIds j) seq r (pair.source.getD "") (pair.target.getD ""), ?_, ?_⟩
      · simp [expectedShots, hsvc]
      · simp [mkShot]
    | none =>
      simp only [expectedShots, hsvc]
      exact expectedShots_head svc newIds rest (j + 1) seq

lemma expectedShots_mem_of_success (svc : Nat → Option AResult) (newIds : Nat → String) :
    ∀ (valid : List PendingPair) (j0 seq k : Nat) (hk : k < valid.length) (r : AResult),
    svc (j0 + k) = some r →
    ∃ s ∈ expectedShots svc newIds valid j0 seq,
      s.sourceImage = valid[k].source.getD "" ∧ s.targetImage = valid[k].target.getD "" ∧
      s.topic = jsStringOr r.topic "Sequence Segment"
  | [], _, _, k, hk, _ => by simp at hk
  | pair :: rest, j0, seq, k, hk, r => by
    match k with
    | 0 =>
      intro hsvc
      simp only [Nat.add_zero] at hsvc
      refine ⟨mkShot (newIds j0) seq r (pair.source.getD "") (pair.target.getD ""),
        ?_, by simp [mkShot], by simp [mkShot], by simp [mkShot]⟩
      simp [expectedShots, hsvc]
    | k + 1 =>
      intro hsvc
      have hk' : k < rest.length := by simpa using hk
      have hsvc' : svc (j0 + 1 + k) = some r := by
        rw [show j0 + 1 + k = j0 + (k + 1) by omega]; exact hsvc
      cases hs : svc j0 with
      | some r0 =>
        obtain ⟨s, hmem, hprops⟩ :=
          expectedShots_mem_of_success svc newIds rest (j0 + 1) (seq + 1) k hk' r hsvc'
        exact ⟨s, by simp [expectedShots, hs, hmem], by simpa using hprops⟩
      | none =>
        obtain ⟨s, hmem, hprops⟩ :=
          expectedShots_mem_of_success svc newIds rest (j0 + 1) seq k hk' r hsvc'
        exact ⟨s, by simp [expectedShots, hs, hmem], by simpa using hprops⟩

/-! ### Shape of the column and mixed batch drops -/

lemma columnAssign_length (slot : Slot) (newIds : Nat → String) :
    ∀ (imgs : List String) (i : Nat) (cur : List PendingPair), i ≤ cur.length →
    (columnAssign slot newIds imgs i cur).length = max (i + imgs.length) cur.length
  | [], i, cur, h => by
    simp only [columnAssign, List.length_nil, Nat.add_zero]
    omega
  | img :: rest, i, cur, h => by
    rw [columnAssign]
    by_cases hi : i < cur.length
    · rw [dif_pos hi]
      rw [columnAssign_length slot newIds rest (i + 1) _ (by simp only [List.length_set]; omega)]
      simp only [List.length_set, List.length_cons]
      omega
    · rw [dif_neg hi]
      rw [columnAssign_length slot newIds rest (i + 1) _ (by simp; omega)]
      simp only [List.length_append, List.length_cons, List.length_nil]
      omega

lemma columnAssign_getElem (slot : Slot) (newIds : Nat → String) :
    ∀ (imgs : List String) (i : Nat) (cur : List PendingPair), i ≤ cur.length → ∀ (j : Nat),
    (columnAssign slot newIds imgs i cur)[j]? =
      if j < i then cur[j]?
      else if j < cur.length then
        (if j - i < imgs.length then
          (cur[j]?).map (fun p => setSlot p slot (imgs.getD (j - i) "")) else cur[j]?)
      else if j < i + imgs.length then
        some (newPairSlot slot (imgs.getD (j - i) "") (newIds j))
      else none
  | [], i, cur, h, j => by
    rw [columnAssign]
    by_cases h1 : j < i
    · simp [h1]
    · by_cases h2 : j < cur.length
      · simp [h1, h2]
      · simp [h1, h2, (by omega : ¬ j < i + 0),
          List.getElem?_eq_none (by omega : cur.length ≤ j)]
  | img :: rest, i, cur, h, j => by
    rw [columnAssign]
    by_cases hi : i < cur.length
    · rw [dif_pos hi]
      rw [columnAssign_getElem slot newIds rest (i + 1) _
        (by simp only [List.length_set]; omega) j]
      rcases Nat.lt_trichotomy j i with hj | rfl | hj
      · have h1 : j < i + 1 := by omega
        simp [hj, h1, List.getElem?_set_ne (show i ≠ j by omega)]
      · have h1 : j < j + 1 := by omega
        simp [h1, (by omega : ¬ j < j), hi, List.getElem?_set,
          List.getElem?_eq_getElem hi]
      · have h1 : ¬ j < i + 1 := by omega
        have h2 : ¬ j < i := by omega
        have h3 : j - i = (j - (i + 1)) + 1 := by omega
        by_cases h4 : j < cur.length
        · by_cases h6 : j - (i + 1) < rest.length
          · have h7 : j - i < rest.length + 1 := by omega
            simp [h1, h2, h4, h6, h7, h3, List.getElem?_set_ne (show i ≠ j by omega),
              List.getElem_set_ne (show i ≠ j by omega), List.getD_cons_succ]
          · have h7 : ¬ j - i < rest.length + 1 := by omega
            simp [h1, h2, h4, h6, h7, List.getElem?_set_ne (show i ≠ j by omega),
              List.getElem_set_ne (show i ≠ j by omega)]
        · by_cases h8 : j < i + 1 + rest.length
          · have h9 : j < i + (rest.length + 1) := by omega
            simp [h1, h2, h4, h8, h9, h3, List.getD_cons_succ]
          · have h9 : ¬ j < i + (rest.length + 1) := by omega
            simp [h1, h2, h4, h8, h9]
    · rw [dif_neg hi]
      have hieq : i = cur.length := by omega
      rw [columnAssign_getElem slot newIds rest (i + 1) _ (by simp; omega) j]
      rcases Nat.lt_trichotomy j i with hj | rfl | hj
      · have h1 : j < i + 1 := by omega
        have h2 : j < cur.length := by omega
        simp [h1, hj, List.getElem?_append, h2]
      · subst hieq
        have h1 : cur.length < cur.length + 1 := by omega
        simp [h1, (by omega : ¬ cur.length < cur.length), List.getElem?_concat_length,
          (by omega : cur.length < cur.length + (rest.length + 1))]
      · have h1 : ¬ j < i + 1 := by omega
        have h2 : ¬ j < i := by omega
        have h3 : ¬ j < cur.length := by omega
        have h4 : j - i = (j - (i + 1)) + 1 := by omega
        have h7 : ¬ j < cur.length + 1 := by omega
        by_cases h5 : j < i + 1 + rest.length
        · have h6 : j < i + (rest.length + 1) := by omega
          simp [h1, h2, h3, h5, h6, h4, h7, List.getD_cons_succ]
        · have h6 : ¬ j < i + (rest.length + 1) := by omega
          simp [h1, h2, h3, h5, h6, h7]

lemma mixedNewPairs_length (newIds : Nat → String) :
    ∀ (imgs : List String) (i : Nat),
    (mixedNewPairs newIds imgs i).length = (imgs.length + 1) / 2
  | [], _ => rfl
  | [_], _ => by simp [mixedNewPairs]
  | _ :: _ :: rest, i => by
    simp only [mixedNewPairs, List.length_cons,
      mixedNewPairs_length newIds rest (i + 2)]
    omega

lemma mixedNewPairs_getElem (newIds : Nat → String) :
    ∀ (imgs : List String) (i : Nat), (∀ s ∈ imgs, s ≠ "") →
    ∀ (j : Nat), j < (mixedNewPairs newIds imgs i).length →
    ∃ q, (mixedNewPairs newIds imgs i)[j]? = some q ∧
      q.source = imgs[2 * j]? ∧
      q.target = (if 2 * j + 1 < imgs.length then imgs[2 * j + 1]? else none) ∧
      q.status = Status.idle
  | [], _, _, j => by simp [mixedNewPairs]
  | [a], i, hne, j => by
    intro hj
    simp only [mixedNewPairs, List.length_cons, List.length_nil] at hj
    match j with
    | 0 =>
      refine ⟨{ id := newIds i, source := some a, target := none, status := Status.idle },
        ?_, ?_, ?_, rfl⟩
      · simp [mixedNewPairs]
      · simp
      · simp
    | j + 1 => omega
  | a :: b :: rest, i, hne, j => by
    intro hj
    match j with
    | 0 =>
      have hb : b ≠ "" := hne b (by simp)
      refine ⟨⟨newIds i, some a, jsOrNull (some b), Status.idle⟩, ?_, ?_, ?_, rfl⟩
      · simp [mixedNewPairs]
      · simp
      · have hlt : 2 * 0 + 1 < (a :: b :: rest).length := by simp
        rw [if_pos hlt]
        simp [jsOrNull, hb]
    | j + 1 =>
      have hj' : j < (mixedNewPairs newIds rest (i + 2)).length := by
        simp only [mixedNewPairs, List.length_cons] at hj
        omega
      obtain ⟨q, hq, hsrc, htgt, hst⟩ :=
        mixedNewPairs_getElem newIds rest (i + 2)
          (fun s hs => hne s (by simp [hs])) j hj'
      refine ⟨q, ?_, ?_, ?_, hst⟩
      · simpa [mixedNewPairs] using hq
      · rw [hsrc]
        have he : 2 * (j + 1) = 2 * j + 1 + 1 := by omega
        simp [he]
      · rw [htgt]
        by_cases hc : 2 * j + 1 < rest.length
        · have hc2 : 2 * (j + 1) + 1 < (a :: b :: rest).length := by simp; omega
          rw [if_pos hc, if_pos hc2]
          have he : 2 * (j + 1) + 1 = 2 * j + 1 + 1 + 1 := by omega
          simp [he]
        · have hc2 : ¬ 2 * (j + 1) + 1 < (a :: b :: rest).length := by simp; omega
          rw [if_neg hc, if_neg hc2]

/-! ### Heap model of the pair list

React state updates in the source pass around references to pair
objects.  To settle statements about in-place mutation we make the
store explicit: a `PairHeap` holds every allocated pair object
(addresses are allocation indices) and a pending list is a `List Nat`
of addresses.  `let currentPairs = [...prev]` copies the address list
but not the objects, so the alpha/beta branches of `handleBatchDrop`,
which assign `currentPairs[i].source = img` directly, write through
addresses shared with the previous list; every other operation builds
new objects with spread syntax (`{ ...p, ... }`), i.e. fresh
allocations, leaving the previous objects untouched. -/

structure PairHeap where
  objs : List PendingPair
deriving DecidableEq

/-- Dereference an address (out-of-range reads, which never occur in
well-formed states, give an inert default). -/
def PairHeap.read (h : PairHeap) (a : Nat) : PendingPair :=
  (h.objs[a]?).getD (freshPair "")

/-- Overwrite the object at an address in place. -/
def PairHeap.write (h : PairHeap) (a : Nat) (o : PendingPair) : PairHeap :=
  ⟨h.objs.set a o⟩

/-- Allocate a new object, returning its address. -/
def PairHeap.alloc (h : PairHeap) (o : PendingPair) : PairHeap × Nat :=
  (⟨h.objs ++ [o]⟩, h.objs.length)

/-- Heap version of `addPair`: one fresh allocation, appended address. -/
def addPairHeap (h : PairHeap) (refs : List Nat) (newId : String) : PairHeap × List Nat :=
  let al := h.alloc (freshPair newId)
  (al.1, refs ++ [al.2])

/-- Heap version of `removePendingPair`: the reset branch allocates one
fresh pair, the filter branch drops addresses without touching the
store. -/
def removePendingPairHeap (h : PairHeap) (refs : List Nat) (pid freshId : String) :
    PairHeap × List Nat :=
  if refs.length ≤ 1 then
    let al := h.alloc (freshPair freshId)
    (al.1, [al.2])
  else (h, refs.filter (fun r => (h.read r).id != pid))

/-- `prev.map(p => cond(p) ? { ...p, ... } : p)` over the heap: matching
entries are rebuilt as fresh allocations, the rest keep their address. -/
def mapAllocUpdate (cond : PendingPair → Bool) (upd : PendingPair → PendingPair) :
    PairHeap → List Nat → PairHeap × List Nat
  | h, [] => (h, [])
  | h, r :: rs =>
    if cond (h.read r) then
      let al := h.alloc (upd (h.read r))
      let res1 := mapAllocUpdate cond upd al.1 rs
      (res1.1, al.2 :: res1.2)
    else
      let res1 := mapAllocUpdate cond upd h rs
      (res1.1, r :: res1.2)

/-- Heap version of `handleImageUpload`. -/
def handleImageUploadHeap (h : PairHeap) (refs : List Nat)
    (pid fileType base64 : String) (slot : Slot) : PairHeap × List Nat :=
  if ¬ isImageMime fileType then (h, refs)
  else mapAllocUpdate (fun p => p.id == pid) (fun p => setSlot p slot base64) h refs

/-- Heap version of the status transitions
(`prev.map(p => p.id === pair.id ? { ...p, status } : p)`). -/
def markStatusHeap (h : PairHeap) (refs : List Nat) (pid : String) (s : Status) :
    PairHeap × List Nat :=
  mapAllocUpdate (fun p => p.id == pid) (fun p => { p with status := s }) h refs

/-- The alpha/beta loop of `handleBatchDrop` over the heap:
`currentPairs[i].source = img` mutates the object at the shared address
`refs[i]` in place; the overflow branch allocates a fresh pair and
appends its address. -/
def columnDropHeap (slot : Slot) (newIds : Nat → String) :
    List String → Nat → PairHeap → List Nat → PairHeap × List Nat
  | [], _, h, refs => (h, refs)
  | img :: rest, i, h, refs =>
    if hr : i < refs.length then
      columnDropHeap slot newIds rest (i + 1)
        (h.write refs[i] (setSlot (h.read refs[i]) slot img)) refs
    else
      let al := h.alloc (newPairSlot slot img (newIds i))
      columnDropHeap slot newIds rest (i + 1) al.1 (refs ++ [al.2])

/-- The mixed loop of `handleBatchDrop` over the heap: every new pair is
a fresh allocation. -/
def allocMixed (newIds : Nat → String) : List String → Nat → PairHeap → PairHeap × List Nat
  | [], _, h => (h, [])
  | [a], i, h =>
    let al := h.alloc ⟨newIds i, some a, none, Status.idle⟩
    (al.1, [al.2])
  | a :: b :: rest, i, h =>
    let al := h.alloc ⟨newIds i, some a, jsOrNull (some b), Status.idle⟩
    let res1 := allocMixed newIds rest (i + 2) al.1
    (res1.1, al.2 :: res1.2)

/-- Heap version of `handleBatchDrop`. -/
def handleBatchDropHeap (ty : DropType) (newIds : Nat → String) (imgs : List String)
    (h : PairHeap) (refs : List Nat) : PairHeap × List Nat :=
  if imgs.length = 0 then (h, refs)
  else
    match ty with
    | DropType.alpha => columnDropHeap Slot.source newIds imgs 0 h refs
    | DropType.beta => columnDropHeap Slot.target newIds imgs 0 h refs
    | DropType.mixed =>
      let res1 := allocMixed newIds imgs 0 h
      (res1.1, refs.filter (fun r => hasAnyImage (h.read r)) ++ res1.2)

lemma PairHeap.read_alloc_lt (h : PairHeap) (o : PendingPair) (a : Nat)
    (ha : a < h.objs.length) : (h.alloc o).1.read a = h.read a := by
  simp [PairHeap.read, PairHeap.alloc, List.getElem?_append, ha]

lemma PairHeap.read_write_ne (h : PairHeap) (b : Nat) (o : PendingPair) (a : Nat)
    (hne : b ≠ a) : (h.write b o).read a = h.read a := by
  simp [PairHeap.read, PairHeap.write, List.getElem?_set_ne hne]

lemma PairHeap.read_write_self (h : PairHeap) (b : Nat) (o : PendingPair)
    (hb : b < h.objs.length) : (h.write b o).read b = o := by
  simp [PairHeap.read, PairHeap.write, List.getElem?_set, hb]

lemma PairHeap.write_length (h : PairHeap) (b : Nat) (o : PendingPair) :
    (h.write b o).objs.length = h.objs.length := by
  simp [PairHeap.write]

lemma mapAllocUpdate_read (cond : PendingPair → Bool) (upd : PendingPair → PendingPair) :
    ∀ (rs : List Nat) (h : PairHeap) (a : Nat), a < h.objs.length →
    (mapAllocUpdate cond upd h rs).1.read a = h.read a
  | [], _, _, _ => rfl
  | r :: rs, h, a, ha => by
    rw [mapAllocUpdate]
    by_cases hc : cond (h.read r) = true
    · rw [if_pos hc]
      have hlen : a < ((h.alloc (upd (h.read r))).1).objs.length := by
        simp [PairHeap.alloc]
        omega
      calc (mapAllocUpdate cond upd (h.alloc (upd (h.read r))).1 rs).1.read a
          = (h.alloc (upd (h.read r))).1.read a :=
            mapAllocUpdate_read cond upd rs _ a hlen
        _ = h.read a := PairHeap.read_alloc_lt h _ a ha
    · rw [if_neg hc]
      exact mapAllocUpdate_read cond upd rs h a ha

lemma allocMixed_read (newIds : Nat → String) :
    ∀ (imgs : List String) (i : Nat) (h : PairHeap) (a : Nat), a < h.objs.length →
    (allocMixed newIds imgs i h).1.read a = h.read a
  | [], _, _, _, _ => rfl
  | [x], i, h, a, ha => by
    rw [allocMixed]
    exact PairHeap.read_alloc_lt h _ a ha
  | x :: y :: rest, i, h, a, ha => by
    rw [allocMixed]
    have hlen : a < ((h.alloc ⟨newIds i, some x, jsOrNull (some y), Status.idle⟩).1).objs.length := by
      simp [PairHeap.alloc]
      omega
    calc (allocMixed newIds rest (i + 2) (h.alloc ⟨newIds i, some x, jsOrNull (some y), Status.idle⟩).1).1.read a
        = (h.alloc ⟨newIds i, some x, jsOrNull (some y), Status.idle⟩).1.read a :=
          allocMixed_read newIds rest (i + 2) _ a hlen
      _ = h.read a := PairHeap.read_alloc_lt h _ a ha

/-- Position of the first occurrence of an address in an address list. -/
def idxOfAddr : List Nat → Nat → Option Nat
  | [], _ => none
  | r :: rs, a => if r = a then some 0 else (idxOfAddr rs a).map (· + 1)

lemma idxOfAddr_eq_none_iff : ∀ (l : List Nat) (a : Nat), idxOfAddr l a = none ↔ a ∉ l
  | [], a => by simp [idxOfAddr]
  | r :: rs, a => by
    by_cases h : r = a
    · simp [idxOfAddr, h]
    · simp [idxOfAddr, h, idxOfAddr_eq_none_iff rs a, Ne.symm h]

lemma nodup_getElem_not_mem_drop : ∀ (l : List Nat), l.Nodup →
    ∀ (i : Nat) (hi : i < l.length), l[i] ∉ l.drop (i + 1)
  | [], _, i, hi => by simp at hi
  | x :: xs, hnd, i, hi => by
    obtain ⟨hx, hxs⟩ := List.nodup_cons.mp hnd
    match i with
    | 0 =>
      intro hmem
      exact hx (by simpa using hmem)
    | i + 1 =>
      have hi' : i < xs.length := by simpa using hi
      simpa using nodup_getElem_not_mem_drop xs hxs i hi'

lemma columnDropHeap_read (slot : Slot) (newIds : Nat → String) :
    ∀ (imgs : List String) (i : Nat) (h : PairHeap) (refs : List Nat),
    (∀ r ∈ refs, r < h.objs.length) → refs.Nodup → ∀ (a : Nat), a < h.objs.length →
    (columnDropHeap slot newIds imgs i h refs).1.read a =
      match idxOfAddr ((refs.drop i).take imgs.length) a with
      | some t => setSlot (h.read a) slot (imgs.getD t "")
      | none => h.read a
  | [], i, h, refs, hval, hnd, a, ha => by
    simp [columnDropHeap, idxOfAddr]
  | img :: rest, i, h, refs, hval, hnd, a, ha => by
    rw [columnDropHeap]
    by_cases hr : i < refs.length
    · rw [dif_pos hr]
      have hrefs_i : refs[i] < h.objs.length := hval refs[i] (List.getElem_mem hr)
      have hval1 : ∀ r ∈ refs, r < ((h.write refs[i] (setSlot (h.read refs[i]) slot img)).objs.length) := by
        rw [PairHeap.write_length]
        exact hval
      have ha1 : a < ((h.write refs[i] (setSlot (h.read refs[i]) slot img)).objs.length) := by
        rw [PairHeap.write_length]
        exact ha
      rw [columnDropHeap_read slot newIds rest (i + 1) _ refs hval1 hnd a ha1]
      rw [List.drop_eq_getElem_cons hr]
      simp only [List.length_cons, List.take_succ_cons, idxOfAddr]
      by_cases hia : refs[i] = a
      · rw [if_pos hia]
        have hnm : a ∉ (refs.drop (i + 1)).take rest.length := by
          intro hmem
          exact (hia ▸ nodup_getElem_not_mem_drop refs hnd i hr) (List.mem_of_mem_take hmem)
        rw [(idxOfAddr_eq_none_iff _ a).mpr hnm]
        rw [hia] at hrefs_i ⊢
        rw [PairHeap.read_write_self h a _ hrefs_i]
        simp
      · rw [if_neg hia]
        rw [PairHeap.read_write_ne h refs[i] _ a hia]
        cases hidx : idxOfAddr ((refs.drop (i + 1)).take rest.length) a with
        | some t => simp [hidx]
        | none => simp [hidx]
    · rw [dif_neg hr]
      have hlen : (h.alloc (newPairSlot slot img (newIds i))).1.objs.length = h.objs.length + 1 := by
        simp [PairHeap.alloc]
      have hval1 : ∀ r ∈ refs ++ [(h.alloc (newPairSlot slot img (newIds i))).2],
          r < (h.alloc (newPairSlot slot img (newIds i))).1.objs.length := by
        intro r hm
        rw [hlen]
        rcases List.mem_append.mp hm with hm1 | hm2
        · have := hval r hm1
          omega
        · simp only [List.mem_singleton] at hm2
          simp [hm2, PairHeap.alloc]
      have hnd1 : (refs ++ [(h.alloc (newPairSlot slot img (newIds i))).2]).Nodup := by
        rw [List.nodup_append]
        refine ⟨hnd, List.nodup_singleton _, ?_⟩
        intro r hm1 hm2
        simp only [List.mem_singleton] at hm2
        have := hval r hm1
        simp only [PairHeap.alloc] at hm2
        omega
      have ha1 : a < (h.alloc (newPairSlot slot img (newIds i))).1.objs.length := by
        rw [hlen]; omega
      rw [columnDropHeap_read slot newIds rest (i + 1) _ _ hval1 hnd1 a ha1]
      have hd1 : (refs ++ [(h.alloc (newPairSlot slot img (newIds i))).2]).drop (i + 1) = [] := by
        apply List.drop_eq_nil_of_le
        simp only [List.length_append, List.length_singleton]
        omega
      have hd2 : refs.drop i = [] := by
        apply List.drop_eq_nil_of_le
        omega
      rw [hd1, hd2]
      simp [idxOfAddr, PairHeap.read_alloc_lt h _ a ha]

/-! ### Small field lemmas and shared sample data -/

lemma setSlot_id (p : PendingPair) (slot : Slot) (img : String) :
    (setSlot p slot img).id = p.id := by cases slot <;> rfl

lemma setSlot_status (p : PendingPair) (slot : Slot) (img : String) :
    (setSlot p slot img).status = p.status := by cases slot <;> rfl

lemma slotVal_setSlot_self (p : PendingPair) (slot : Slot) (img : String) :
    slotVal (setSlot p slot img) slot = some img := by cases slot <;> rfl

lemma slotVal_setSlot_opposite (p : PendingPair) (slot : Slot) (img : String) :
    slotVal (setSlot p slot img) (oppositeSlot slot) = slotVal p (oppositeSlot slot) := by
  cases slot <;> rfl

lemma newPairSlot_status (slot : Slot) (img newId : String) :
    (newPairSlot slot img newId).status = Status.idle := by cases slot <;> rfl

lemma slotVal_newPairSlot_self (slot : Slot) (img newId : String) :
    slotVal (newPairSlot slot img newId) slot = some img := by cases slot <;> rfl

lemma slotVal_newPairSlot_opposite (slot : Slot) (img newId : String) :
    slotVal (newPairSlot slot img newId) (oppositeSlot slot) = none := by cases slot <;> rfl

/-- Under the invariant that image payloads are never the empty string
(data URLs produced by `FileReader.readAsDataURL` always start with
"data:"), JS truthiness of a pair field is just presence. -/
lemma hasAnyImage_eq_isSome (p : PendingPair)
    (h1 : p.source ≠ some "") (h2 : p.target ≠ some "") :
    hasAnyImage p = (p.source.isSome || p.target.isSome) := by
  cases hs : p.source with
  | none =>
    cases ht : p.target with
    | none => simp [hasAnyImage, truthy, hs, ht]
    | some t =>
      have htne : t ≠ "" := by rw [ht] at h2; simpa using h2
      simp [hasAnyImage, truthy, hs, ht, htne]
  | some s =>
    have hsne : s ≠ "" := by rw [hs] at h1; simpa using h1
    simp [hasAnyImage, truthy, hs, hsne]

/-- Sample id supply for concrete runs. -/
def sampleIds : Nat → String := fun _ => "fresh-id"

/-- Sample pairs with both plates attached. -/
def samplePairA : PendingPair := ⟨"A", some "imgA1", some "imgA2", Status.idle⟩

/-- A second sample pair with both plates attached. -/
def samplePairB : PendingPair := ⟨"B", some "imgB1", some "imgB2", Status.idle⟩

/-- A sample parsed analysis response. -/
def sampleResult : AResult := ⟨some "Topic", some "Vis", some "Act"⟩

/-- Service oracle succeeding only on the first qualifying pair. -/
def sampleSvcFirstOnly : Nat → Option AResult :=
  fun j => if j = 0 then some sampleResult else none

/-- Service oracle succeeding everywhere. -/
def sampleSvcAll : Nat → Option AResult := fun _ => some sampleResult

/-- Service oracle failing everywhere. -/
def sampleSvcNone : Nat → Option AResult := fun _ => none

/-! ### Claims -/

/-- Claim C7: if no pending pair qualifies (both images present, status
not completed), `processBatch` is a no-op: the busy callback is never
invoked, no service request is issued, no error is reported, and neither
the pending list nor the project changes.  Otherwise the busy callback
is invoked exactly twice, `true` before the first pair and `false` after
the last, and one service request is issued per qualifying pair. -/
theorem claim_C7_noop_and_busy (svc : Nat → Option AResult) (newIds : Nat → String)
    (freshId : String) (pairs : List PendingPair) (proj : Project) :
    ((pairs.filter qualifies).length = 0 →
      processBatch svc newIds freshId pairs proj =
        { pendingPairs := pairs, project := proj, busyEvents := [],
          errorReports := [], requests := [] }) ∧
    ((pairs.filter qualifies).length ≠ 0 →
      (processBatch svc newIds freshId pairs proj).busyEvents = [true, false] ∧
      (processBatch svc newIds freshId pairs proj).requests.length =
        (pairs.filter qualifies).length) := by
  rw [processBatch_eq]
  by_cases h : (pairs.filter qualifies).length = 0
  · simp [h]
  · simp [h]

/-- Witness for C7 at concrete inputs: a list holding a single empty
pair has no qualifying pair, so the run returns everything unchanged
with no callback activity; a list holding one complete pair yields busy
events `[true, false]`. -/
theorem claim_C7_witness :
    processBatch sampleSvcAll sampleIds "F" [freshPair "E"] (Project.mk [] 1) =
      { pendingPairs := [freshPair "E"], project := Project.mk [] 1, busyEvents := [],
        errorReports := [], requests := [] } ∧
    (processBatch sampleSvcAll sampleIds "F" [samplePairA] (Project.mk [] 1)).busyEvents =
      [true, false] := by
  constructor
  · exact (claim_C7_noop_and_busy sampleSvcAll sampleIds "F" [freshPair "E"]
      (Project.mk [] 1)).1 (by decide)
  · exact ((claim_C7_noop_and_busy sampleSvcAll sampleIds "F" [samplePairA]
      (Project.mk [] 1)).2 (by decide)).1

/-- Claim C8: a single-slot upload with an image MIME type replaces
exactly the chosen field of exactly the addressed pair — its status and
other field, and every other pair, are unchanged; a non-image MIME type
leaves the list entirely unchanged. -/
theorem claim_C8_single_slot (pairs : List PendingPair) (pid fileType base64 : String)
    (slot : Slot) :
    (¬ isImageMime fileType →
      handleImageUpload pairs pid fileType base64 slot = pairs) ∧
    (isImageMime fileType →
      (handleImageUpload pairs pid fileType base64 slot).length = pairs.length ∧
      (∀ (k : Nat) (p : PendingPair), pairs[k]? = some p →
        (p.id ≠ pid → (handleImageUpload pairs pid fileType base64 slot)[k]? = some p) ∧
        (p.id = pid → ∃ q,
          (handleImageUpload pairs pid fileType base64 slot)[k]? = some q ∧
          q.id = p.id ∧ q.status = p.status ∧
          slotVal q (oppositeSlot slot) = slotVal p (oppositeSlot slot) ∧
          slotVal q slot = some base64))) := by
  constructor
  · intro hmime
    rw [handleImageUpload, if_pos hmime]
  · intro hmime
    rw [handleImageUpload, if_neg (by simpa using hmime)]
    refine ⟨by simp, ?_⟩
    intro k p hk
    constructor
    · intro hne
      rw [List.getElem?_map, hk]
      simp [hne]
    · intro heq
      refine ⟨setSlot p slot base64, ?_, setSlot_id p slot base64,
        setSlot_status p slot base64, slotVal_setSlot_opposite p slot base64,
        slotVal_setSlot_self p slot base64⟩
      rw [List.getElem?_map, hk]
      simp [heq]

/-- Witness for C8 at concrete inputs: a PNG dropped on pair B's target
slot replaces just that field; a plain-text file changes nothing. -/
theorem claim_C8_witness :
    handleImageUpload [samplePairA, samplePairB] "B" "text/plain" "newimg" Slot.target =
      [samplePairA, samplePairB] ∧
    (handleImageUpload [samplePairA, samplePairB] "B" "image/png" "newimg" Slot.target)[1]? =
      some ⟨"B", some "imgB1", some "newimg", Status.idle⟩ := by
  constructor
  · exact (claim_C8_single_slot [samplePairA, samplePairB] "B" "text/plain" "newimg"
      Slot.target).1 (by decide)
  · have h := ((claim_C8_single_slot [samplePairA, samplePairB] "B" "image/png" "newimg"
      Slot.target).2 (by decide)).2 1 samplePairB (by decide)
    obtain ⟨q, hq, hid, hst, hopp, hself⟩ := h.2 rfl
    rw [hq]
    have : q = ⟨"B", some "imgB1", some "newimg", Status.idle⟩ := by
      revert hid hst hopp hself
      cases q
      simp [samplePairB, slotVal, oppositeSlot]
      intro h1 h2 h3 h4
      simp [h1, h2, h3, h4]
    rw [this]

/-- Claim C9: a successful but empty analysis result (no `topic` field)
yields a shot whose topic is the fixed placeholder "Sequence Segment";
and every service invocation of a batch requests a JSON
(`application/json`) response with the structured string fields `topic`,
`analysis`, `prompt`, all required. -/
theorem claim_C9_topic_default_and_request :
    (∀ (shotId : String) (seq : Nat) (r : AResult) (src tgt : String),
      r.topic = none → (mkShot shotId seq r src tgt).topic = "Sequence Segment") ∧
    analysisRequestConfig.responseMimeType = "application/json" ∧
    analysisRequestConfig.schemaProperties.map Prod.fst = ["topic", "analysis", "prompt"] ∧
    analysisRequestConfig.requiredFields = ["topic", "analysis", "prompt"] ∧
    (∀ (svc : Nat → Option AResult) (newIds : Nat → String) (freshId : String)
       (pairs : List PendingPair) (proj : Project),
      ∀ req ∈ (processBatch svc newIds freshId pairs proj).requests,
        req = analysisRequestConfig) := by
  refine ⟨?_, rfl, by rfl, rfl, ?_⟩
  · intro shotId seq r src tgt htopic
    simp [mkShot, jsStringOr, htopic]
  · intro svc newIds freshId pairs proj req hreq
    rw [processBatch_eq] at hreq
    by_cases h : (pairs.filter qualifies).length = 0
    · rw [if_pos h] at hreq
      simp at hreq
    · rw [if_neg h] at hreq
      simp only at hreq
      exact List.eq_of_mem_replicate hreq

/-- Witness for C9 at a concrete input: a run over one qualifying pair
whose service response parsed to the empty object produces one shot with
the placeholder topic, and one JSON request. -/
theorem claim_C9_witness :
    (mkShot "s" 3 ⟨none, none, none⟩ "i1" "i2").topic = "Sequence Segment" ∧
    (∀ req ∈ (processBatch (fun _ => some ⟨none, none, none⟩) sampleIds "F"
        [samplePairA] (Project.mk [] 1)).requests, req = analysisRequestConfig) := by
  constructor
  · exact claim_C9_topic_default_and_request.1 "s" 3 ⟨none, none, none⟩ "i1" "i2" rfl
  · exact claim_C9_topic_default_and_request.2.2.2.2 (fun _ => some ⟨none, none, none⟩)
      sampleIds "F" [samplePairA] (Project.mk [] 1)

/-- Claim C10: a project whose `startingSequenceNumber` is 0 is treated
exactly like one whose `startingSequenceNumber` is 1 — every observable
output of `processBatch` agrees (the stored field itself aside) — and
under either value the first appended shot receives sequence order
`1 + shots.length`, never `0 + shots.length`. -/
theorem claim_C10_zero_treated_as_one (svc : Nat → Option AResult) (newIds : Nat → String)
    (freshId : String) (pairs : List PendingPair) (shots : List Shot) :
    (processBatch svc newIds freshId pairs (Project.mk shots 0)).pendingPairs =
      (processBatch svc newIds freshId pairs (Project.mk shots 1)).pendingPairs ∧
    (processBatch svc newIds freshId pairs (Project.mk shots 0)).project.shots =
      (processBatch svc newIds freshId pairs (Project.mk shots 1)).project.shots ∧
    (processBatch svc newIds freshId pairs (Project.mk shots 0)).busyEvents =
      (processBatch svc newIds freshId pairs (Project.mk shots 1)).busyEvents ∧
    (processBatch svc newIds freshId pairs (Project.mk shots 0)).errorReports =
      (processBatch svc newIds freshId pairs (Project.mk shots 1)).errorReports ∧
    (processBatch svc newIds freshId pairs (Project.mk shots 0)).requests =
      (processBatch svc newIds freshId pairs (Project.mk shots 1)).requests ∧
    (∀ s, ((processBatch svc newIds freshId pairs (Project.mk shots 0)).project.shots.drop
        shots.length).head? = some s →
      s.sequenceOrder = 1 + shots.length ∧ s.sequenceOrder ≠ 0 + shots.length) := by
  have hseq : seqInit (Project.mk shots 0) = seqInit (Project.mk shots 1) := by
    simp [seqInit]
  rw [processBatch_eq, processBatch_eq, hseq]
  by_cases h : (pairs.filter qualifies).length = 0
  · rw [if_pos h, if_pos h]
    refine ⟨rfl, rfl, rfl, rfl, rfl, ?_⟩
    intro s hs
    simp at hs
  · rw [if_neg h, if_neg h]
    refine ⟨rfl, rfl, rfl, rfl, rfl, ?_⟩
    intro s hs
    simp only [List.drop_left] at hs
    have hne : expectedShots svc newIds (pairs.filter qualifies) 0
        (seqInit (Project.mk shots 1)) ≠ [] := by
      intro hnil
      rw [hnil] at hs
      simp at hs
    obtain ⟨s', hs', hseq'⟩ := expectedShots_head svc newIds (pairs.filter qualifies) 0
      (seqInit (Project.mk shots 1)) hne
    rw [hs'] at hs
    cases hs
    constructor
    · rw [hseq']
      simp [seqInit]
    · rw [hseq']
      simp [seqInit]

/-- Claim C3: a column batch drop (alpha or beta) of `k` images onto `m`
pairs yields `max k m` pairs; for `i < min k m` the i-th pair keeps its
id, status, and untargeted field and gets the i-th image in the targeted
field; for `m ≤ i < k` the i-th pair is newly created with status idle,
the i-th image in the targeted field and the other field empty. -/
theorem claim_C3_column_drop (ty : DropType) (hty : ty ≠ DropType.mixed)
    (newIds : Nat → String) (imgs : List String) (prev : List PendingPair) :
    (handleBatchDrop ty newIds imgs prev).length = max imgs.length prev.length ∧
    (∀ (i : Nat), i < imgs.length → i < prev.length →
      ∃ p q, prev[i]? = some p ∧ (handleBatchDrop ty newIds imgs prev)[i]? = some q ∧
        q.id = p.id ∧ q.status = p.status ∧
        slotVal q (oppositeSlot (colSlot ty)) = slotVal p (oppositeSlot (colSlot ty)) ∧
        slotVal q (colSlot ty) = imgs[i]?) ∧
    (∀ (i : Nat), prev.length ≤ i → i < imgs.length →
      ∃ q, (handleBatchDrop ty newIds imgs prev)[i]? = some q ∧
        q.status = Status.idle ∧ slotVal q (colSlot ty) = imgs[i]? ∧
        slotVal q (oppositeSlot (colSlot ty)) = none) := by
  have hdrop : handleBatchDrop ty newIds imgs prev =
      if imgs.length = 0 then prev else columnAssign (colSlot ty) newIds imgs 0 prev := by
    cases ty with
    | alpha => rfl
    | beta => rfl
    | mixed => exact absurd rfl hty
  rw [hdrop]
  by_cases hk : imgs.length = 0
  · rw [if_pos hk]
    refine ⟨by omega, ?_, ?_⟩
    · intro i hi; omega
    · intro i _ hi; omega
  · rw [if_neg hk]
    refine ⟨?_, ?_, ?_⟩
    · rw [columnAssign_length (colSlot ty) newIds imgs 0 prev (by omega)]
      omega
    · intro i hik him
      have hget := columnAssign_getElem (colSlot ty) newIds imgs 0 prev (by omega) i
      rw [if_neg (by omega : ¬ i < 0), if_pos him, if_pos (by omega : i - 0 < imgs.length)] at hget
      refine ⟨prev[i], setSlot prev[i] (colSlot ty) (imgs.getD (i - 0) ""), by simp, ?_, ?_, ?_, ?_, ?_⟩
      · rw [hget, List.getElem?_eq_getElem him]
        rfl
      · exact setSlot_id _ _ _
      · exact setSlot_status _ _ _
      · exact slotVal_setSlot_opposite _ _ _
      · rw [slotVal_setSlot_self]
        rw [List.getElem?_eq_getElem hik, List.getD_eq_getElem _ _ (by omega)]
        simp
    · intro i him hik
      have hget := columnAssign_getElem (colSlot ty) newIds imgs 0 prev (by omega) i
      rw [if_neg (by omega : ¬ i < 0), if_neg (by omega : ¬ i < prev.length),
        if_pos (by omega : i < 0 + imgs.length)] at hget
      refine ⟨newPairSlot (colSlot ty) (imgs.getD (i - 0) "") (newIds i), hget, ?_, ?_, ?_⟩
      · exact newPairSlot_status _ _ _
      · rw [slotVal_newPairSlot_self]
        rw [List.getElem?_eq_getElem hik, List.getD_eq_getElem _ _ (by omega)]
        simp
      · exact slotVal_newPairSlot_opposite _ _ _

/-- Witness for C3 at concrete inputs: an alpha drop of three images on
one pair keeps the pair (source replaced) and appends two new pairs. -/
theorem claim_C3_witness :
    (handleBatchDrop DropType.alpha sampleIds ["i0", "i1", "i2"] [samplePairA]).length = 3 ∧
    (handleBatchDrop DropType.alpha sampleIds ["i0", "i1", "i2"] [samplePairA])[0]? =
      some ⟨"A", some "i0", some "imgA2", Status.idle⟩ := by
  constructor
  · exact (claim_C3_column_drop DropType.alpha (by decide) sampleIds
      ["i0", "i1", "i2"] [samplePairA]).1
  · have h := ((claim_C3_column_drop DropType.alpha (by decide) sampleIds
      ["i0", "i1", "i2"] [samplePairA]).2.1) 0 (by decide) (by decide)
    obtain ⟨p, q, hp, hq, hid, hst, hopp, hself⟩ := h
    have hpA : p = samplePairA := by
      rw [List.getElem?_cons_zero] at hp
      exact ((Option.some.injEq _ _).mp hp).symm
    subst hpA
    rw [hq]
    have : q = ⟨"A", some "i0", some "imgA2", Status.idle⟩ := by
      revert hid hst hopp hself
      cases q
      simp [samplePairA, slotVal, oppositeSlot, colSlot]
      intro h1 h2 h3 h4
      simp [h1, h2, h3, h4]
    rw [this]

/-- Counterexample to claim C4 as stated: a mixed drop whose file list
contains no image files (`k = 0`) returns before updating the state, so
a fully-empty pre-existing pair is NOT discarded, while the claim's
description (kept pairs followed by `ceil(0/2) = 0` new pairs) would be
the empty list. -/
theorem claim_C4_counterexample :
    handleBatchDrop DropType.mixed sampleIds [] [freshPair "E"] = [freshPair "E"] ∧
    handleBatchDrop DropType.mixed sampleIds [] [freshPair "E"] ≠
      List.filter (fun p => p.source.isSome || p.target.isSome) [freshPair "E"] ++
        mixedNewPairs sampleIds [] 0 := by
  constructor
  · rfl
  · decide

/-- Claim C4 (amended): for a mixed batch drop of `k ≥ 1` image files —
image payloads, being data URLs, are nonempty, and likewise every image
already stored on a pair — the result is exactly the pre-existing pairs
having at least one image, in order, followed by `ceil(k/2)` new idle
pairs, pair `j` holding image `2j` as source and image `2j+1` as target
(target empty for the odd last image); a drop with zero image files
leaves the list unchanged (the handler returns early). -/
theorem claim_C4_mixed_drop (newIds : Nat → String) (imgs : List String)
    (prev : List PendingPair) (hk : imgs ≠ []) (himg : ∀ s ∈ imgs, s ≠ "")
    (hprev : ∀ p ∈ prev, p.source ≠ some "" ∧ p.target ≠ some "") :
    (handleBatchDrop DropType.mixed newIds imgs prev).take
        (prev.filter (fun p => p.source.isSome || p.target.isSome)).length =
      prev.filter (fun p => p.source.isSome || p.target.isSome) ∧
    ((handleBatchDrop DropType.mixed newIds imgs prev).drop
        (prev.filter (fun p => p.source.isSome || p.target.isSome)).length).length =
      (imgs.length + 1) / 2 ∧
    (∀ (j : Nat), j < (imgs.length + 1) / 2 →
      ∃ q, ((handleBatchDrop DropType.mixed newIds imgs prev).drop
          (prev.filter (fun p => p.source.isSome || p.target.isSome)).length)[j]? = some q ∧
        q.source = imgs[2 * j]? ∧
        q.target = (if 2 * j + 1 < imgs.length then imgs[2 * j + 1]? else none) ∧
        q.status = Status.idle) := by
  have hlen : ¬ imgs.length = 0 := by
    cases imgs with
    | nil => exact absurd rfl hk
    | cons a l => simp
  have hfilter : prev.filter hasAnyImage =
      prev.filter (fun p => p.source.isSome || p.target.isSome) := by
    apply List.filter_congr
    intro p hp
    exact hasAnyImage_eq_isSome p (hprev p hp).1 (hprev p hp).2
  have hdrop : handleBatchDrop DropType.mixed newIds imgs prev =
      prev.filter (fun p => p.source.isSome || p.target.isSome) ++
        mixedNewPairs newIds imgs 0 := by
    rw [handleBatchDrop, if_neg hlen, ← hfilter]
  rw [hdrop]
  refine ⟨List.take_left _ _, ?_, ?_⟩
  · rw [List.drop_left]
    exact mixedNewPairs_length newIds imgs 0
  · intro j hj
    rw [List.drop_left]
    exact mixedNewPairs_getElem newIds imgs 0 himg j
      (by rw [mixedNewPairs_length newIds imgs 0]; exact hj)

/-- Witness for the amended C4 at concrete inputs: a mixed drop of three
images onto a list holding one full pair and one empty pair discards the
empty pair, keeps the full one, and appends two new pairs `(i0, i1)` and
`(i2, –)`. -/
theorem claim_C4_witness :
    (handleBatchDrop DropType.mixed sampleIds ["i0", "i1", "i2"]
        [samplePairA, freshPair "E"]).take 1 = [samplePairA] ∧
    ((handleBatchDrop DropType.mixed sampleIds ["i0", "i1", "i2"]
        [samplePairA, freshPair "E"]).drop 1).length = 2 := by
  have h := claim_C4_mixed_drop sampleIds ["i0", "i1", "i2"] [samplePairA, freshPair "E"]
    (by decide) (by decide) (by decide)
  have hfl : ([samplePairA, freshPair "E"].filter
      (fun p => p.source.isSome || p.target.isSome)) = [samplePairA] := by decide
  constructor
  · have := h.1
    rw [hfl] at this
    simpa using this
  · have := h.2.1
    rw [hfl] at this
    simpa using this

/-- Counterexample to claim C1 as stated: with `startingSequenceNumber
= 0` and no existing shots, the claim predicts the first shot gets
sequence order `0 + 0 = 0`, but the code computes
`(startingSequenceNumber || 1) + shots.length`, so the shot gets 1. -/
theorem claim_C1_counterexample :
    (processBatch sampleSvcAll sampleIds "F" [samplePairA]
        (Project.mk [] 0)).project.shots.map Shot.sequenceOrder = [1] ∧
    (processBatch sampleSvcAll sampleIds "F" [samplePairA]
        (Project.mk [] 0)).project.shots.map Shot.sequenceOrder ≠
      [(Project.mk [] 0).startingSequenceNumber + (Project.mk ([] : List Shot) 0).shots.length] := by
  constructor
  · decide
  · decide

/-- Claim C1 (amended): in every run of `processBatch` the number of
appended shots equals the number of qualifying pairs whose service call
succeeds, the existing shots are untouched, the appended shots'
sequence orders are strictly increasing in processing order, and the
first appended shot's sequence order is
`(startingSequenceNumber, or 1 when it is 0/unset) + shots.length`
measured before the batch began — in particular 7 when
`startingSequenceNumber = 5` and two shots exist. -/
theorem claim_C1_shot_count_and_sequence (svc : Nat → Option AResult)
    (newIds : Nat → String) (freshId : String) (pairs : List PendingPair) (proj : Project) :
    (processBatch svc newIds freshId pairs proj).project.shots.length =
      proj.shots.length + succCount svc 0 (pairs.filter qualifies).length ∧
    (processBatch svc newIds freshId pairs proj).project.shots.take proj.shots.length =
      proj.shots ∧
    ((processBatch svc newIds freshId pairs proj).project.shots.drop
      proj.shots.length).Pairwise (fun a b => a.sequenceOrder < b.sequenceOrder) ∧
    (∀ s, ((processBatch svc newIds freshId pairs proj).project.shots.drop
        proj.shots.length).head? = some s →
      s.sequenceOrder =
        (if proj.startingSequenceNumber = 0 then 1 else proj.startingSequenceNumber) +
          proj.shots.length) ∧
    (proj.startingSequenceNumber = 5 → proj.shots.length = 2 →
      ∀ s, ((processBatch svc newIds freshId pairs proj).project.shots.drop
        proj.shots.length).head? = some s → s.sequenceOrder = 7) := by
  rw [processBatch_eq]
  by_cases h : (pairs.filter qualifies).length = 0
  · rw [if_pos h, h]
    refine ⟨by simp [succCount], by simp, by simp, ?_, ?_⟩
    · intro s hs
      simp at hs
    · intro _ _ s hs
      simp at hs
  · rw [if_neg h]
    simp only [List.take_left, List.drop_left, List.length_append]
    refine ⟨?_, by trivial, expectedShots_pairwise svc newIds _ 0 _, ?_, ?_⟩
    · rw [expectedShots_length]
    · intro s hs
      have hne : expectedShots svc newIds (pairs.filter qualifies) 0 (seqInit proj) ≠ [] := by
        intro hnil
        rw [hnil] at hs
        simp at hs
      obtain ⟨s', hs', hseq'⟩ := expectedShots_head svc newIds (pairs.filter qualifies) 0
        (seqInit proj) hne
      rw [hs'] at hs
      cases hs
      rw [hseq']
      rfl
    · intro h5 h2 s hs
      have hne : expectedShots svc newIds (pairs.filter qualifies) 0 (seqInit proj) ≠ [] := by
        intro hnil
        rw [hnil] at hs
        simp at hs
      obtain ⟨s', hs', hseq'⟩ := expectedShots_head svc newIds (pairs.filter qualifies) 0
        (seqInit proj) hne
      rw [hs'] at hs
      cases hs
      rw [hseq']
      simp [seqInit, h5, h2]

/-- Witness for the amended C1 at the spec's own example:
`startingSequenceNumber = 5`, two existing shots, one qualifying pair
processed successfully yields exactly one new shot with sequence order
`7`. -/
theorem claim_C1_witness :
    (processBatch sampleSvcAll sampleIds "F" [samplePairA]
        (Project.mk [mkShot "s1" 5 sampleResult "x1" "x2", mkShot "s2" 6 sampleResult "y1" "y2"] 5)).project.shots.length = 3 ∧
    (∀ s, ((processBatch sampleSvcAll sampleIds "F" [samplePairA]
        (Project.mk [mkShot "s1" 5 sampleResult "x1" "x2", mkShot "s2" 6 sampleResult "y1" "y2"] 5)).project.shots.drop 2).head? = some s →
      s.sequenceOrder = 7) := by
  have h := claim_C1_shot_count_and_sequence sampleSvcAll sampleIds "F" [samplePairA]
    (Project.mk [mkShot "s1" 5 sampleResult "x1" "x2", mkShot "s2" 6 sampleResult "y1" "y2"] 5)
  constructor
  · have := h.1
    rw [this]
    decide
  · exact h.2.2.2.2 rfl rfl

/-- Claim C6: the pending list is never empty after any operation.
Removing the only remaining pair — whatever id is requested — resets the
list to a single fresh pair with both fields empty and status idle; a
batch in which every pair qualifies and succeeds empties the purge
filter, which is replaced by a single such fresh pair; and each
operation maps a nonempty list to a nonempty list (removal relies on
ids being distinct, as UUID-generated ids are). -/
theorem claim_C6_no_empty_list :
    (∀ (p : PendingPair) (pid freshId : String),
      removePendingPair [p] pid freshId =
        [{ id := freshId, source := none, target := none, status := Status.idle }]) ∧
    (∀ (svc : Nat → Option AResult) (newIds : Nat → String) (freshId : String)
       (pairs : List PendingPair) (proj : Project),
      pairs ≠ [] → (∀ p ∈ pairs, qualifies p) → (∀ j, (svc j).isSome) →
      (pairs.map PendingPair.id).Nodup →
      (processBatch svc newIds freshId pairs proj).pendingPairs =
        [{ id := freshId, source := none, target := none, status := Status.idle }]) ∧
    (∀ (newId : String) (prev : List PendingPair), prev ≠ [] → addPair newId prev ≠ []) ∧
    (∀ (pairs : List PendingPair) (pid freshId : String), pairs ≠ [] →
      (pairs.map PendingPair.id).Nodup → removePendingPair pairs pid freshId ≠ []) ∧
    (∀ (pairs : List PendingPair) (pid fileType base64 : String) (slot : Slot),
      pairs ≠ [] → handleImageUpload pairs pid fileType base64 slot ≠ []) ∧
    (∀ (ps : List PendingPair) (pid : String) (s : Status),
      ps ≠ [] → markStatus ps pid s ≠ []) ∧
    (∀ (ty : DropType) (newIds : Nat → String) (imgs : List String)
       (prev : List PendingPair), prev ≠ [] → handleBatchDrop ty newIds imgs prev ≠ []) ∧
    (∀ (svc : Nat → Option AResult) (newIds : Nat → String) (freshId : String)
       (pairs : List PendingPair) (proj : Project), pairs ≠ [] →
      (processBatch svc newIds freshId pairs proj).pendingPairs ≠ []) := by
  refine ⟨?_, ?_, ?_, ?_, ?_, ?_, ?_, ?_⟩
  · intro p pid freshId
    simp [removePendingPair, freshPair]
  · intro svc newIds freshId pairs proj hne hq hs hnd
    have hfilter : pairs.filter qualifies = pairs := List.filter_eq_self.mpr hq
    rw [processBatch_eq, hfilter]
    have hlen : ¬ pairs.length = 0 := by
      cases pairs with
      | nil => exact absurd rfl hne
      | cons a l => simp
    rw [if_neg hlen]
    have hmarked : ∀ p ∈ applyMarks svc pairs 0 pairs, p.status = Status.completed := by
      rw [applyMarks_spec svc pairs hnd 0 pairs]
      intro p hp
      obtain ⟨q, hq_mem, hq_eq⟩ := List.mem_map.mp hp
      cases hidx : findIdxId pairs q.id with
      | none =>
        have : q.id ∉ pairs.map PendingPair.id := (findIdxId_eq_none_iff pairs q.id).mp hidx
        exact absurd (List.mem_map_of_mem PendingPair.id hq_mem) this
      | some k =>
        rw [hidx] at hq_eq
        obtain ⟨r, hr⟩ := Option.isSome_iff_exists.mp (hs k)
        rw [← hq_eq]
        simp [outcomeStatus, hr]
    have hfiltered : (applyMarks svc pairs 0 pairs).filter
        (fun p => p.status != Status.completed) = [] := by
      rw [List.filter_eq_nil_iff]
      intro p hp
      simp [hmarked p hp]
    simp only [hfiltered]
    simp [freshPair]
  · intro newId prev _
    simp [addPair]
  · intro pairs pid freshId hne hnd
    rw [removePendingPair]
    by_cases hlen : pairs.length ≤ 1
    · simp [hlen]
    · rw [if_neg hlen]
      rcases pairs with _ | ⟨p1, _ | ⟨p2, rest⟩⟩
      · exact absurd rfl hne
      · simp at hlen
      · have h12 : p1.id ≠ p2.id := by
          simp only [List.map_cons, List.nodup_cons, List.mem_cons] at hnd
          intro hc
          exact hnd.1 (Or.inl hc)
        intro hcontra
        rw [List.filter_eq_nil_iff] at hcontra
        by_cases hp1 : p1.id = pid
        · have h2 := hcontra p2 (by simp)
          simp only [bne_iff_ne, ne_eq, not_not] at h2
          exact h12 (hp1.trans h2.symm)
        · have h1 := hcontra p1 (by simp)
          simp only [bne_iff_ne, ne_eq, not_not] at h1
          exact hp1 h1
  · intro pairs pid fileType base64 slot hne
    rw [handleImageUpload]
    by_cases hmime : ¬ isImageMime fileType
    · rw [if_pos hmime]; exact hne
    · rw [if_neg hmime]
      simpa using hne
  · intro ps pid s hne
    rw [markStatus]
    simpa using hne
  · intro ty newIds imgs prev hne
    rw [handleBatchDrop.eq_def]
    by_cases hk : imgs.length = 0
    · rw [if_pos hk]; exact hne
    · rw [if_neg hk]
      have hm : 0 < prev.length := List.length_pos.mpr hne
      cases ty with
      | alpha =>
        show columnAssign Slot.source newIds imgs 0 prev ≠ []
        have := columnAssign_length Slot.source newIds imgs 0 prev (by omega)
        intro hcontra
        rw [hcontra] at this
        simp at this
        omega
      | beta =>
        show columnAssign Slot.target newIds imgs 0 prev ≠ []
        have := columnAssign_length Slot.target newIds imgs 0 prev (by omega)
        intro hcontra
        rw [hcontra] at this
        simp at this
        omega
      | mixed =>
        show prev.filter hasAnyImage ++ mixedNewPairs newIds imgs 0 ≠ []
        have := mixedNewPairs_length newIds imgs 0
        intro hcontra
        rw [List.append_eq_nil] at hcontra
        rw [hcontra.2] at this
        simp at this
        omega
  · intro svc newIds freshId pairs proj hne
    rw [processBatch_eq]
    by_cases h : (pairs.filter qualifies).length = 0
    · rw [if_pos h]; exact hne
    · rw [if_neg h]
      simp only
      by_cases hf : 0 < ((applyMarks svc (pairs.filter qualifies) 0 pairs).filter
          (fun p => p.status != Status.completed)).length
      · rw [if_pos hf]
        intro hcontra
        rw [hcontra] at hf
        simp at hf
      · rw [if_neg hf]
        simp

/-- Witness for C6 at concrete inputs: removing the only pair (under a
non-matching id) resets to a fresh pair, and an all-success batch over
one qualifying pair leaves exactly one fresh pair. -/
theorem claim_C6_witness :
    removePendingPair [samplePairA] "zzz" "F" =
      [{ id := "F", source := none, target := none, status := Status.idle }] ∧
    (processBatch sampleSvcAll sampleIds "F" [samplePairA] (Project.mk [] 1)).pendingPairs =
      [{ id := "F", source := none, target := none, status := Status.idle }] ∧
    removePendingPair [samplePairA, samplePairB] "A" "F" ≠ [] := by
  refine ⟨claim_C6_no_empty_list.1 samplePairA "zzz" "F", ?_, ?_⟩
  · exact claim_C6_no_empty_list.2.1 sampleSvcAll sampleIds "F" [samplePairA]
      (Project.mk [] 1) (by decide) (by decide) (fun j => rfl) (by decide)
  · exact claim_C6_no_empty_list.2.2.2.1 [samplePairA, samplePairB] "A" "F"
      (by decide) (by decide)

lemma nodup_filter_ids (pairs : List PendingPair)
    (hnd : (pairs.map PendingPair.id).Nodup) :
    ((pairs.filter qualifies).map PendingPair.id).Nodup :=
  List.Nodup.sublist (List.Sublist.map PendingPair.id (List.filter_sublist pairs)) hnd

lemma succCount_eq_zero (svc : Nat → Option AResult) :
    ∀ (n j : Nat), (∀ k, k < n → svc (j + k) = none) → succCount svc j n = 0
  | 0, _, _ => rfl
  | n + 1, j, h => by
    have h0 : svc j = none := by simpa using h 0 (by omega)
    have hrest : ∀ k, k < n → svc (j + 1 + k) = none := by
      intro k hk
      have hh := h (k + 1) (by omega)
      rw [show j + (k + 1) = j + 1 + k by omega] at hh
      exact hh
    simp [succCount, h0, succCount_eq_zero svc n (j + 1) hrest]

/-- The status-update function a batch applies to each pair of the live
list (pointwise form of `applyMarks`). -/
def markFun (svc : Nat → Option AResult) (valid : List PendingPair) (p : PendingPair) :
    PendingPair :=
  match findIdxId valid p.id with
  | some k => { p with status := outcomeStatus svc (0 + k) }
  | none => p

lemma markFun_id (svc : Nat → Option AResult) (valid : List PendingPair) (p : PendingPair) :
    (markFun svc valid p).id = p.id := by
  rw [markFun]
  cases findIdxId valid p.id <;> rfl

lemma applyMarks_eq_map (svc : Nat → Option AResult) (valid : List PendingPair)
    (hndv : (valid.map PendingPair.id).Nodup) (ps : List PendingPair) :
    applyMarks svc valid 0 ps = ps.map (markFun svc valid) := by
  rw [applyMarks_spec svc valid hndv 0 ps]
  rfl

/-- Claim C5: per-pair failure is isolated.  In any batch, a qualifying
pair whose call succeeds is purged from the pending list and contributes
a shot carrying its two images; a qualifying pair whose call fails stays
in the pending list marked `error`; each failure is reported exactly
once with context "Analysis"; the number of appended shots equals the
number of successes; and when every qualifying call fails no shot is
added and the whole original list is retained, the qualifying pairs
marked `error` and the rest untouched (using the standing invariants
that ids are distinct — UUIDs — and that no pair carries status
`completed` outside a batch, since the post-batch purge removes them). -/
theorem claim_C5_failure_isolation (svc : Nat → Option AResult) (newIds : Nat → String)
    (freshId : String) (pairs : List PendingPair) (proj : Project)
    (hnd : (pairs.map PendingPair.id).Nodup)
    (hfresh : freshId ∉ pairs.map PendingPair.id) :
    (∀ (j : Nat) (hj : j < (pairs.filter qualifies).length) (r : AResult), svc j = some r →
      (pairs.filter qualifies)[j].id ∉
        (processBatch svc newIds freshId pairs proj).pendingPairs.map PendingPair.id ∧
      ∃ s ∈ (processBatch svc newIds freshId pairs proj).project.shots.drop
          proj.shots.length,
        s.sourceImage = (pairs.filter qualifies)[j].source.getD "" ∧
        s.targetImage = (pairs.filter qualifies)[j].target.getD "") ∧
    (∀ (j : Nat) (hj : j < (pairs.filter qualifies).length), svc j = none →
      ∃ p ∈ (processBatch svc newIds freshId pairs proj).pendingPairs,
        p.id = (pairs.filter qualifies)[j].id ∧ p.status = Status.error) ∧
    (processBatch svc newIds freshId pairs proj).errorReports =
      List.replicate (failCount svc 0 (pairs.filter qualifies).length) "Analysis" ∧
    (processBatch svc newIds freshId pairs proj).project.shots.length =
      proj.shots.length + succCount svc 0 (pairs.filter qualifies).length ∧
    ((∀ p ∈ pairs, p.status ≠ Status.completed) →
     (∀ j, j < (pairs.filter qualifies).length → svc j = none) →
      (processBatch svc newIds freshId pairs proj).project.shots = proj.shots ∧
      (processBatch svc newIds freshId pairs proj).pendingPairs =
        pairs.map (fun p => if qualifies p then { p with status := Status.error } else p)) := by
  have hndv : ((pairs.filter qualifies).map PendingPair.id).Nodup := nodup_filter_ids pairs hnd
  by_cases hzero : (pairs.filter qualifies).length = 0
  · rw [processBatch_eq, if_pos hzero]
    refine ⟨?_, ?_, ?_, ?_, ?_⟩
    · intro j hj; omega
    · intro j hj; omega
    · rw [hzero]; rfl
    · rw [hzero]; rfl
    · intro _ _
      refine ⟨rfl, ?_⟩
      have hnoq : ∀ p ∈ pairs, ¬ qualifies p := by
        rw [← List.filter_eq_nil_iff]
        exact List.length_eq_zero.mp hzero
      calc pairs = pairs.map id := (List.map_id pairs).symm
        _ = pairs.map (fun p => if qualifies p then { p with status := Status.error } else p) := by
            apply List.map_congr_left
            intro p hp
            simp [hnoq p hp]
  · rw [processBatch_eq, if_neg hzero]
    simp only
    rw [applyMarks_eq_map svc (pairs.filter qualifies) hndv pairs]
    refine ⟨?_, ?_, ?_, ?_, ?_⟩
    · -- (a) success: purged, and a shot with the pair's images exists
      intro j hj r hsvc
      have hjq : (pairs.filter qualifies)[j] ∈ pairs :=
        List.mem_of_mem_filter (List.getElem_mem hj)
      have hfind : findIdxId (pairs.filter qualifies) ((pairs.filter qualifies)[j].id) =
          some j := findIdxId_get (pairs.filter qualifies) hndv j hj
      constructor
      · by_cases hflt : ((pairs.map (markFun svc (pairs.filter qualifies))).filter
            (fun p => p.status != Status.completed)).length > 0
        · rw [if_pos hflt]
          intro hmem
          obtain ⟨x, hx_mem, hx_id⟩ := List.mem_map.mp hmem
          obtain ⟨hx_marked, hx_status⟩ := List.mem_filter.mp hx_mem
          obtain ⟨p0, hp0_mem, hp0_eq⟩ := List.mem_map.mp hx_marked
          have hp0_id : p0.id = (pairs.filter qualifies)[j].id := by
            rw [← hx_id, ← hp0_eq, markFun_id]
          have hp0_val : p0 = (pairs.filter qualifies)[j] :=
            List.inj_on_of_nodup_map hnd hp0_mem hjq hp0_id
          rw [markFun, hp0_val, hfind] at hp0_eq
          rw [← hp0_eq] at hx_status
          simp [outcomeStatus, hsvc] at hx_status
        · rw [if_neg hflt]
          intro hmem
          simp only [List.map_cons, List.map_nil, List.mem_singleton, freshPair] at hmem
          exact hfresh (hmem ▸ List.mem_map_of_mem PendingPair.id hjq)
      · obtain ⟨s, hs_mem, hs_src, hs_tgt, _⟩ :=
          expectedShots_mem_of_success svc newIds (pairs.filter qualifies) 0
            (seqInit proj) j hj r (by simpa using hsvc)
        rw [List.drop_left]
        exact ⟨s, hs_mem, hs_src, hs_tgt⟩
    · -- (b) failure: retained with status error
      intro j hj hsvc
      have hjq : (pairs.filter qualifies)[j] ∈ pairs :=
        List.mem_of_mem_filter (List.getElem_mem hj)
      have hfind : findIdxId (pairs.filter qualifies) ((pairs.filter qualifies)[j].id) =
          some j := findIdxId_get (pairs.filter qualifies) hndv j hj
      have hmarked_mem : markFun svc (pairs.filter qualifies) ((pairs.filter qualifies)[j]) ∈
          pairs.map (markFun svc (pairs.filter qualifies)) :=
        List.mem_map_of_mem _ hjq
      have hval : markFun svc (pairs.filter qualifies) ((pairs.filter qualifies)[j]) =
          { (pairs.filter qualifies)[j] with status := Status.error } := by
        rw [markFun, hfind]
        simp [outcomeStatus, hsvc]
      rw [hval] at hmarked_mem
      have hfilter_mem : { (pairs.filter qualifies)[j] with status := Status.error } ∈
          (pairs.map (markFun svc (pairs.filter qualifies))).filter
            (fun p => p.status != Status.completed) :=
        List.mem_filter.mpr ⟨hmarked_mem, by simp⟩
      have hflt : ((pairs.map (markFun svc (pairs.filter qualifies))).filter
          (fun p => p.status != Status.completed)).length > 0 :=
        List.length_pos.mpr (List.ne_nil_of_mem hfilter_mem)
      rw [if_pos hflt]
      exact ⟨_, hfilter_mem, rfl, rfl⟩
    · trivial
    · simp [expectedShots_length]
    · -- (e) all-fail batch
      intro hnc hfail
      constructor
      · have hnil : expectedShots svc newIds (pairs.filter qualifies) 0 (seqInit proj) = [] := by
          rw [← List.length_eq_zero, expectedShots_length]
          exact succCount_eq_zero svc (pairs.filter qualifies).length 0
            (fun k hk => by simpa using hfail k hk)
        rw [hnil, List.append_nil]
      · have hcongr : ∀ p ∈ pairs, markFun svc (pairs.filter qualifies) p =
            if qualifies p then { p with status := Status.error } else p := by
          intro p hp
          by_cases hq : qualifies p
          · have hpv : p ∈ pairs.filter qualifies := List.mem_filter.mpr ⟨hp, hq⟩
            cases hidx : findIdxId (pairs.filter qualifies) p.id with
            | none =>
              exact absurd (List.mem_map_of_mem PendingPair.id hpv)
                ((findIdxId_eq_none_iff _ _).mp hidx)
            | some k =>
              obtain ⟨hk, hkid⟩ := findIdxId_getElem _ _ _ hidx
              rw [markFun, hidx]
              simp [outcomeStatus, hfail k hk, hq]
          · have hnone : findIdxId (pairs.filter qualifies) p.id = none := by
              cases hidx : findIdxId (pairs.filter qualifies) p.id with
              | none => rfl
              | some k =>
                obtain ⟨hk, hkid⟩ := findIdxId_getElem _ _ _ hidx
                have hkq : (pairs.filter qualifies)[k] ∈ pairs.filter qualifies :=
                  List.getElem_mem hk
                have hkp : (pairs.filter qualifies)[k] ∈ pairs :=
                  List.mem_of_mem_filter hkq
                have : (pairs.filter qualifies)[k] = p :=
                  List.inj_on_of_nodup_map hnd hkp hp hkid
                rw [this] at hkq
                exact absurd (List.of_mem_filter hkq) hq
            rw [markFun, hnone]
            simp [hq]
        have hmap : pairs.map (markFun svc (pairs.filter qualifies)) =
            pairs.map (fun p => if qualifies p then { p with status := Status.error } else p) :=
          List.map_congr_left hcongr
        have hkeep : (pairs.map (markFun svc (pairs.filter qualifies))).filter
            (fun p => p.status != Status.completed) =
            pairs.map (markFun svc (pairs.filter qualifies)) := by
          rw [List.filter_eq_self]
          intro x hx
          obtain ⟨p0, hp0_mem, hp0_eq⟩ := List.mem_map.mp hx
          rw [hcongr p0 hp0_mem] at hp0_eq
          by_cases hq : qualifies p0
          · rw [if_pos hq] at hp0_eq
            rw [← hp0_eq]
            simp
          · rw [if_neg hq] at hp0_eq
            rw [← hp0_eq]
            simpa using hnc p0 hp0_mem
        have hpairs_ne : pairs ≠ [] := by
          intro hcontra
          rw [hcontra] at hzero
          simp at hzero
        have hlen_pos : (pairs.map (fun p =>
            if qualifies p then { p with status := Status.error } else p)).length > 0 := by
          simpa using List.length_pos.mpr hpairs_ne
        rw [hkeep, hmap, if_pos hlen_pos]

/-- Witness for C5 at concrete inputs: over pairs A and B where the
service succeeds on A and fails on B, pair A is purged, pair B is
retained marked error, and exactly one "Analysis" report is emitted. -/
theorem claim_C5_witness :
    "A" ∉ (processBatch sampleSvcFirstOnly sampleIds "F" [samplePairA, samplePairB]
        (Project.mk [] 1)).pendingPairs.map PendingPair.id ∧
    (∃ p ∈ (processBatch sampleSvcFirstOnly sampleIds "F" [samplePairA, samplePairB]
        (Project.mk [] 1)).pendingPairs, p.id = "B" ∧ p.status = Status.error) ∧
    (processBatch sampleSvcFirstOnly sampleIds "F" [samplePairA, samplePairB]
        (Project.mk [] 1)).errorReports = ["Analysis"] := by
  have h := claim_C5_failure_isolation sampleSvcFirstOnly sampleIds "F"
    [samplePairA, samplePairB] (Project.mk [] 1) (by decide) (by decide)
  refine ⟨?_, ?_, ?_⟩
  · exact (h.1 0 (by decide) sampleResult rfl).1
  · exact h.2.1 1 (by decide) rfl
  · exact h.2.2.1

/-- Counterexample to claim C2 as stated: an alpha column batch drop
writes the decoded image directly into the pair object shared with the
previous list (`currentPairs[i].source = img` after a shallow array
copy), so after the drop the caller's previous pair object has changed. -/
theorem claim_C2_counterexample :
    (handleBatchDropHeap DropType.alpha sampleIds ["x"]
        (PairHeap.mk [⟨"p0", none, none, Status.idle⟩]) [0]).1.read 0 ≠
      (PairHeap.mk [⟨"p0", none, none, Status.idle⟩]).read 0 := by
  decide

/-- Claim C2 (amended): add, remove, single-field update, status
transition, and the mixed batch policy leave every pair object of the
previous list unchanged (they only allocate new objects), but the two
column batch policies (alpha and beta) mutate, visibly to any holder of
the previous list, the targeted field of the objects shared with it:
after a column drop of `k` images, the object at address `refs[i]` for
`i < min(k, m)` (addresses distinct and valid) holds image `i` in the
targeted field, and every other stored object is unchanged. -/
theorem claim_C2_mutation (h : PairHeap) (refs : List Nat)
    (pid freshId newId base64 fileType : String) (slot : Slot) (s : Status)
    (newIds : Nat → String) (imgs : List String) (a : Nat) (ha : a < h.objs.length) :
    (addPairHeap h refs newId).1.read a = h.read a ∧
    (removePendingPairHeap h refs pid freshId).1.read a = h.read a ∧
    (handleImageUploadHeap h refs pid fileType base64 slot).1.read a = h.read a ∧
    (markStatusHeap h refs pid s).1.read a = h.read a ∧
    (handleBatchDropHeap DropType.mixed newIds imgs h refs).1.read a = h.read a ∧
    ((∀ r ∈ refs, r < h.objs.length) → refs.Nodup →
      ∀ (ty : DropType), ty ≠ DropType.mixed →
      (handleBatchDropHeap ty newIds imgs h refs).1.read a =
        match idxOfAddr (refs.take imgs.length) a with
        | some t => setSlot (h.read a) (colSlot ty) (imgs.getD t "")
        | none => h.read a) := by
  refine ⟨?_, ?_, ?_, ?_, ?_, ?_⟩
  · exact PairHeap.read_alloc_lt h _ a ha
  · rw [removePendingPairHeap]
    by_cases hlen : refs.length ≤ 1
    · rw [if_pos hlen]
      exact PairHeap.read_alloc_lt h _ a ha
    · rw [if_neg hlen]
  · rw [handleImageUploadHeap]
    by_cases hmime : ¬ isImageMime fileType
    · rw [if_pos hmime]
    · rw [if_neg hmime]
      exact mapAllocUpdate_read _ _ refs h a ha
  · exact mapAllocUpdate_read _ _ refs h a ha
  · rw [handleBatchDropHeap]
    by_cases hk : imgs.length = 0
    · rw [if_pos hk]
    · rw [if_neg hk]
      exact allocMixed_read newIds imgs 0 h a ha
  · intro hval hnd ty hty
    rw [handleBatchDropHeap.eq_def]
    by_cases hk : imgs.length = 0
    · rw [if_pos hk]
      have : imgs = [] := List.length_eq_zero.mp hk
      subst this
      simp [idxOfAddr]
    · rw [if_neg hk]
      cases ty with
      | alpha =>
        show (columnDropHeap Slot.source newIds imgs 0 h refs).1.read a = _
        rw [columnDropHeap_read Slot.source newIds imgs 0 h refs hval hnd a ha]
        rfl
      | beta =>
        show (columnDropHeap Slot.target newIds imgs 0 h refs).1.read a = _
        rw [columnDropHeap_read Slot.target newIds imgs 0 h refs hval hnd a ha]
        rfl
      | mixed => exact absurd rfl hty

/-- Witness for the amended C2 at concrete inputs: adding a pair leaves
the stored object untouched, while an alpha drop of one image rewrites
the shared object's source field in place. -/
theorem claim_C2_witness :
    (addPairHeap (PairHeap.mk [samplePairA]) [0] "N").1.read 0 =
      (PairHeap.mk [samplePairA]).read 0 ∧
    (handleBatchDropHeap DropType.alpha sampleIds ["x"]
        (PairHeap.mk [samplePairA]) [0]).1.read 0 =
      setSlot ((PairHeap.mk [samplePairA]).read 0) Slot.source "x" := by
  have h := claim_C2_mutation (PairHeap.mk [samplePairA]) [0] "A" "F" "N" "b64"
    "image/png" Slot.source Status.idle sampleIds ["x"] 0 (by decide)
  refine ⟨h.1, ?_⟩
  have hcol := h.2.2.2.2.2 (by decide) (by decide) DropType.alpha (by decide)
  exact hcol

/-- Witness for C10 at concrete inputs: one successful pair over an
empty project behaves identically for starting numbers 0 and 1, and the
first appended shot has sequence order 1. -/
theorem claim_C10_witness :
    (processBatch sampleSvcAll sampleIds "F" [samplePairA] (Project.mk [] 0)).project.shots =
      (processBatch sampleSvcAll sampleIds "F" [samplePairA] (Project.mk [] 1)).project.shots ∧
    (∀ s, ((processBatch sampleSvcAll sampleIds "F" [samplePairA]
        (Project.mk [] 0)).project.shots.drop 0).head? = some s → s.sequenceOrder = 1) := by
  have h := claim_C10_zero_treated_as_one sampleSvcAll sampleIds "F" [samplePairA] []
  exact ⟨h.2.1, fun s hs => (h.2.2.2.2.2 s hs).1⟩
